import Mathlib

/-!
# WebCopilot RAG / session subsystem: a shallow embedding

This file embeds the decision-laden core of the WebCopilot browser
extension in Lean 4 and proves the specified properties about it:

* the keyword relevance scorer (`computeRelevanceScore`, rag-system)
* retrieval (`searchRelevantChunks`) and context assembly (`buildContextText`)
* the sentence-boundary chunker (`chunkText`, embeddings manager)
* the character-frequency fallback embedding (`computeSimpleEmbedding`)
* the per-model price/parameter table (`estimateModelCost`, `buildApiRequestBody`)
* the per-tab chat-context manager (`getTabContext`, `updateChatHistory`,
  `cleanupContexts`)

Modelling conventions:

* JavaScript strings are `List Char`; `String` literals enter through `.data`.
* JavaScript numbers are `ℚ` where fractional arithmetic matters
  (scores, prices, temperatures), `Int` for timestamps, `Nat` for sizes
  and indices.  Floating-point rounding is idealised away: every number
  involved is an exact small rational.
* `Array.prototype.sort(cmp)` is a stable comparison sort; it is modelled
  by `List.insertionSort`, which is stable and sorts by the same relation.
* The asynchronous storage layer is an explicit association-list value;
  a `try/catch` around a storage read is an explicit `Except` argument.
* Recursion that the source expresses as a `while` loop over a cursor is
  expressed with an explicit fuel argument so that every definition is
  structurally recursive and executable by the kernel.
-/

/-! ## Generic JavaScript-modelling helpers -/

/-- One step of splitting on runs of whitespace, fuelled.
Models `String.prototype.split(/\s+/)`: a maximal whitespace run is a
separator; a leading or trailing run contributes an empty token, and the
empty string yields `[""]`. -/
def jsSplitWsGo (fuel : Nat) (l : List Char) : List (List Char) :=
  match fuel with
  | 0 => []
  | fuel + 1 =>
    let tok := l.takeWhile (fun c => !c.isWhitespace)
    let rest := l.dropWhile (fun c => !c.isWhitespace)
    match rest with
    | [] => [tok]
    | _ :: rs => tok :: jsSplitWsGo fuel (rs.dropWhile Char.isWhitespace)

/-- `String.prototype.split(/\s+/)` on a JavaScript string. -/
def jsSplitWs (l : List Char) : List (List Char) :=
  jsSplitWsGo (l.length + 1) l

/-- `String.prototype.trim`: drop whitespace from both ends. -/
def trimChars (l : List Char) : List Char :=
  ((l.dropWhile Char.isWhitespace).reverse.dropWhile Char.isWhitespace).reverse

/-- Association-list read, modelling `obj[key]` on a JS object. -/
def lookupKey {α : Type} : List (String × α) → String → Option α
  | [], _ => none
  | e :: rest, key => if e.1 = key then some e.2 else lookupKey rest key

/-- Association-list write, modelling `obj[key] = v` on a JS object:
replace in place when the key exists, append otherwise. -/
def setKey {α : Type} : List (String × α) → String → α → List (String × α)
  | [], key, v => [(key, v)]
  | e :: rest, key, v =>
    if e.1 = key then (e.1, v) :: rest else e :: setKey rest key v

/-! ## Data model (rag-system / embeddings manager) -/

/-- `MemoryChunk` from `@/types`: one text segment derived from a page. -/
structure MemoryChunk where
  id : String
  sourceUrl : List Char
  chunkText : List Char
  embedding : List ℚ
  chunkIndex : Nat
  createdAt : Int
  tags : List String
deriving DecidableEq

/-! ## Relevance scorer (`RAGSystem.computeRelevanceScore`) -/

/-- Inner loop of the scorer: the running best score of one query word
against all whitespace tokens of the chunk.  A pair matches when either
token contains the other; a match is scored
`queryWord.length / Math.max(queryWord.length, chunkWord.length)`. -/
def wordScore (qw : List Char) (chunkWords : List (List Char)) : ℚ :=
  chunkWords.foldl
    (fun acc cw =>
      if qw <:+: cw ∨ cw <:+: qw then
        max acc ((qw.length : ℚ) / (max qw.length cw.length : ℕ))
      else acc) 0

/-- `RAGSystem.computeRelevanceScore`: lower-case both strings, split on
whitespace, skip query tokens shorter than 3, sum the per-token best
scores and divide by the unfiltered query token count. -/
def computeRelevanceScore (query chunkText : List Char) : ℚ :=
  let queryWords := jsSplitWs (query.map Char.toLower)
  let chunkWords := jsSplitWs (chunkText.map Char.toLower)
  let totalWords := queryWords.length
  let score := queryWords.foldl
    (fun s qw => if qw.length < 3 then s else s + wordScore qw chunkWords) 0
  if 0 < totalWords then score / totalWords else 0

/-- The best-per-query-token score as the spec phrases it (maximum over
the chunk tokens of the amended pair score). -/
def specBestMatch (qw : List Char) (chunkWords : List (List Char)) : ℚ :=
  ((chunkWords.map (fun cw =>
      if qw <:+: cw ∨ cw <:+: qw then
        (qw.length : ℚ) / (max qw.length cw.length : ℕ)
      else 0)).foldr max 0)

/-- The amended claim's scorer, written from the spec sentence with the
pair score corrected to `len(query_token) / max(len(query_token),
len(chunk_token))`: sum of best matches over the query tokens of length
at least 3, divided by the unfiltered token count. -/
def specRelevanceScore (query chunkText : List Char) : ℚ :=
  let queryTokens := jsSplitWs (query.map Char.toLower)
  let chunkTokens := jsSplitWs (chunkText.map Char.toLower)
  (((queryTokens.filter (fun w => decide (3 ≤ w.length))).map
      (fun qw => specBestMatch qw chunkTokens)).sum) / (queryTokens.length : ℚ)

/-- The claim's original pair score, `min(len q, len c) / max(len q, len c)`,
kept for comparison with the source scorer. -/
def claimBestMatch (qw : List Char) (chunkWords : List (List Char)) : ℚ :=
  ((chunkWords.map (fun cw =>
      if qw <:+: cw ∨ cw <:+: qw then
        ((min qw.length cw.length : ℕ) : ℚ) / (max qw.length cw.length : ℕ)
      else 0)).foldr max 0)

/-- The relevance scorer exactly as the claim states it, with the
`min/max` pair score. -/
def claimRelevanceScore (query chunkText : List Char) : ℚ :=
  let queryTokens := jsSplitWs (query.map Char.toLower)
  let chunkTokens := jsSplitWs (chunkText.map Char.toLower)
  (((queryTokens.filter (fun w => decide (3 ≤ w.length))).map
      (fun qw => claimBestMatch qw chunkTokens)).sum) / (queryTokens.length : ℚ)

/-! ## Retrieval and context assembly (`RAGSystem`) -/

def MAX_CONTEXT_CHUNKS : Nat := 5

def MAX_CONTEXT_LENGTH : Nat := 4000

def SIMILARITY_THRESHOLD : ℚ := 7/10

/-- `RAGSystem.searchRelevantChunks`: score every chunk, sort descending
by score (stable), take the top `topK`, then keep only the chunks whose
score reaches the similarity threshold. -/
def searchRelevantChunks (query : List Char) (chunks : List MemoryChunk)
    (topK : Nat := MAX_CONTEXT_CHUNKS) : List MemoryChunk :=
  if chunks.length = 0 then []
  else
    let scored := chunks.map (fun c => (c, computeRelevanceScore query c.chunkText))
    let sorted := List.insertionSort
      (fun a b : MemoryChunk × ℚ => b.2 ≤ a.2) scored
    (((sorted.take topK).filter
        (fun p => decide (SIMILARITY_THRESHOLD ≤ p.2))).map Prod.fst)

/-- The context block contributed by one chunk:
`[Source: <url>]\n<chunkText>\n\n`. -/
def sourceBlock (c : MemoryChunk) : List Char :=
  "[Source: ".data ++ c.sourceUrl ++ "]\n".data ++ c.chunkText ++ "\n\n".data

/-- The accumulation loop of `RAGSystem.buildContextText`: append whole
blocks while the running length stays within `MAX_CONTEXT_LENGTH`, and
stop at the first block that would overflow. -/
def buildContextLoop : List MemoryChunk → Nat → List Char
  | [], _ => []
  | c :: cs, len =>
    let block := sourceBlock c
    if MAX_CONTEXT_LENGTH < len + block.length then []
    else block ++ buildContextLoop cs (len + block.length)

/-- `RAGSystem.buildContextText`: concatenate whole source blocks within
the character budget, then `trim()` the result. -/
def buildContextText (chunks : List MemoryChunk) : List Char :=
  if chunks.length = 0 then [] else trimChars (buildContextLoop chunks 0)

/-- The property the claim asserts of the assembled context: being
literally a concatenation of whole source blocks. -/
def IsBlockConcat (s : List Char) : Prop :=
  ∃ cs : List MemoryChunk, s = (cs.map sourceBlock).flatten

/-! ## Chunker (`EmbeddingsManager.chunkText`) -/

/-- Sentence terminators recognised by the chunker. -/
def isSentenceEnd (c : Char) : Bool :=
  c = '.' || c = '!' || c = '?'

/-- The last position `j ≤ bound` in `l` holding a sentence terminator;
models the combined `Math.max` of the three `lastIndexOf(_, end)` calls
(relative to the window start). -/
def lastBreakIdx (l : List Char) (bound : Nat) : Option Nat :=
  ((List.range (bound + 1)).filter
      (fun j => match l[j]? with
        | some c => isSentenceEnd c
        | none => false)).getLast?

/-- Where the current window of `chunkText` ends, relative to the
unprocessed suffix `text`: `min maxChunkSize text.length` characters
ahead, except that a sentence terminator found past 70% of the window
moves the cut to just after the terminator.
The source compares against the float `maxChunkSize * 0.7`; it is
modelled by the exact rational comparison `10 * j > 7 * maxChunkSize`,
which coincides with the float comparison at the only chunk size the
program uses (1000, where `1000 * 0.7` is exactly `700`). -/
def chunkCut (text : List Char) (maxChunkSize : Nat) : Nat :=
  if min maxChunkSize text.length < text.length then
    match lastBreakIdx text maxChunkSize with
    | some j =>
      if 7 * maxChunkSize < 10 * j then j + 1 else min maxChunkSize text.length
    | none => min maxChunkSize text.length
  else min maxChunkSize text.length

/-- The fuelled `while` loop of `EmbeddingsManager.chunkText` over the
unprocessed suffix of the text: cut at `chunkCut`, trim the piece, keep
it when nonempty, continue after the cut. -/
def chunkTextGo (fuel : Nat) (text : List Char) (maxChunkSize : Nat) :
    List (List Char) :=
  match fuel with
  | 0 => []
  | fuel + 1 =>
    if text.length = 0 then []
    else if (trimChars (text.take (chunkCut text maxChunkSize))).isEmpty then
      chunkTextGo fuel (text.drop (chunkCut text maxChunkSize)) maxChunkSize
    else
      trimChars (text.take (chunkCut text maxChunkSize)) ::
        chunkTextGo fuel (text.drop (chunkCut text maxChunkSize)) maxChunkSize

/-- `EmbeddingsManager.chunkText` (default chunk size 1000). -/
def chunkText (text : List Char) (maxChunkSize : Nat := 1000) :
    List (List Char) :=
  chunkTextGo text.length text maxChunkSize

/-! ## Fallback embedding (`EmbeddingsManager.computeSimpleEmbedding`) -/

def EMBED_DIM : Nat := 384

/-- The character-frequency histogram built by the loop in
`computeSimpleEmbedding`: start from the zero vector and increment
bucket `charCode % 384` once per character. -/
def charCounts (text : List Char) : Fin EMBED_DIM → ℕ :=
  text.foldl
    (fun v c =>
      fun i => if i.val = c.toNat % EMBED_DIM then v i + 1 else v i)
    (fun _ => 0)

/-- `EmbeddingsManager.computeSimpleEmbedding`: the histogram, divided by
its Euclidean magnitude when that is positive. -/
noncomputable def computeSimpleEmbedding (text : List Char) : Fin EMBED_DIM → ℝ :=
  let counts : Fin EMBED_DIM → ℝ := fun i => (charCounts text i : ℝ)
  let magnitude := Real.sqrt (∑ i, counts i * counts i)
  if 0 < magnitude then fun i => counts i / magnitude else counts

/-! ## Model configuration (`model-config.ts`) -/

/-- One chat message of the request body. -/
structure ChatReqMessage where
  role : String
  content : String
deriving DecidableEq

/-- A JSON value of the request body, at the granularity the claims need. -/
inductive ReqValue where
  | str : String → ReqValue
  | num : ℚ → ReqValue
  | nat : Nat → ReqValue
  | msgs : List ChatReqMessage → ReqValue
deriving DecidableEq

/-- `ModelConfig` from `model-config.ts`. -/
structure ModelConfig where
  apiModelName : String
  useMaxCompletionTokens : Bool
  defaultTemperature : ℚ
  maxTokensSupported : Nat
  inputCostPer1K : ℚ
  outputCostPer1K : ℚ
  supportsSystemMessages : Bool
  additionalParams : List (String × ReqValue) := []

def gpt4oMiniConfig : ModelConfig where
  apiModelName := "gpt-4o-mini"
  useMaxCompletionTokens := false
  defaultTemperature := 7/10
  maxTokensSupported := 128000
  inputCostPer1K := 15/100000
  outputCostPer1K := 6/10000
  supportsSystemMessages := true

def gpt35TurboConfig : ModelConfig where
  apiModelName := "gpt-3.5-turbo"
  useMaxCompletionTokens := false
  defaultTemperature := 7/10
  maxTokensSupported := 16385
  inputCostPer1K := 15/10000
  outputCostPer1K := 2/1000
  supportsSystemMessages := true

def gpt5MiniConfig : ModelConfig where
  apiModelName := "gpt-5-mini"
  useMaxCompletionTokens := true
  defaultTemperature := 1
  maxTokensSupported := 128000
  inputCostPer1K := 1/10000
  outputCostPer1K := 4/10000
  supportsSystemMessages := true

def o4MiniConfig : ModelConfig where
  apiModelName := "o4-mini"
  useMaxCompletionTokens := true
  defaultTemperature := 1
  maxTokensSupported := 65536
  inputCostPer1K := 2/10000
  outputCostPer1K := 8/10000
  supportsSystemMessages := true

def localWasmConfig : ModelConfig where
  apiModelName := "local-wasm"
  useMaxCompletionTokens := false
  defaultTemperature := 7/10
  maxTokensSupported := 4096
  inputCostPer1K := 0
  outputCostPer1K := 0
  supportsSystemMessages := true

/-- `MODEL_CONFIGS`: the static per-model table. -/
def MODEL_CONFIGS : List (String × ModelConfig) :=
  [("gpt-4o-mini", gpt4oMiniConfig),
   ("gpt-3.5-turbo", gpt35TurboConfig),
   ("gpt-5-mini", gpt5MiniConfig),
   ("o4-mini", o4MiniConfig),
   ("local-wasm", localWasmConfig)]

/-- `getModelConfig`: table lookup with fallback to the `gpt-4o-mini`
entry for unknown model names. -/
def getModelConfig (modelName : String) : ModelConfig :=
  (lookupKey MODEL_CONFIGS modelName).getD gpt4oMiniConfig

/-- `buildApiRequestBody`: the provider request body, with the token
limit under `max_completion_tokens` or `max_tokens` depending on the
model, clamped to the model's supported maximum. -/
def buildApiRequestBody (modelName : String)
    (messages : List ChatReqMessage) (maxTokens : Nat)
    (temperature : Option ℚ := none) : List (String × ReqValue) :=
  let config := getModelConfig modelName
  [("model", ReqValue.str config.apiModelName),
   ("messages", ReqValue.msgs messages),
   ("temperature", ReqValue.num (temperature.getD config.defaultTemperature))]
  ++ (if config.useMaxCompletionTokens then
        [("max_completion_tokens",
          ReqValue.nat (min maxTokens config.maxTokensSupported))]
      else
        [("max_tokens",
          ReqValue.nat (min maxTokens config.maxTokensSupported))])
  ++ config.additionalParams

/-- `estimateModelCost`: token counts priced by the resolved model's
per-1K input/output prices. -/
def estimateModelCost (modelName : String)
    (inputTokens outputTokens : ℚ) : ℚ :=
  (inputTokens / 1000) * (getModelConfig modelName).inputCostPer1K +
  (outputTokens / 1000) * (getModelConfig modelName).outputCostPer1K

/-! ## Tab chat manager (`tab-chat-manager.ts`) -/

/-- `ChatMessage` at the granularity the session claims need. -/
structure ChatMessage where
  id : String
  role : String
  content : String
  timestamp : Int
deriving DecidableEq

/-- `PageContent` at the granularity the session claims need. -/
structure PageContent where
  url : String
  title : String
  company : Option String
  description : String
  content : String
  extractedAt : Int
  hash : String
deriving DecidableEq

/-- `TabChatContext` from `tab-chat-manager.ts`. -/
structure TabChatContext where
  tabId : Nat
  url : String
  title : String
  sessionKey : String
  chatHistory : List ChatMessage
  pageContent : Option PageContent
  createdAt : Int
  lastAccessedAt : Int
deriving DecidableEq

/-- The stored `tabChatContexts` map. -/
abbrev CtxMap := List (String × TabChatContext)

def MAX_CONTEXTS : Nat := 50

def MAX_AGE : Int := 24 * 60 * 60 * 1000

/-- `TabChatManager.generateContextKey`. -/
def generateContextKey (tabId : Nat) (sessionKey : String) : String :=
  "tab_" ++ toString tabId ++ "_" ++ sessionKey

/-- `TabChatManager.getTabContext`.  The storage read is the `Except`
argument (`.error` models a rejected `chrome.storage` read caught by the
surrounding `try/catch`; `.ok none` a store with no `tabChatContexts`
entry).  Returns the looked-up context (`none` models `null`) together
with the map written back by `saveContext`, `none` when nothing is
written. -/
def getTabContext (read : Except Unit (Option CtxMap)) (tabId : Nat)
    (url : String) (sessionKey : String) (now : Int) :
    Option TabChatContext × Option CtxMap :=
  match read with
  | .error _ => (none, none)
  | .ok stored =>
    let contexts := stored.getD []
    let contextKey := generateContextKey tabId sessionKey
    match lookupKey contexts contextKey with
    | some context =>
      if context.url = url then
        let context' := { context with lastAccessedAt := now }
        (some context', some (setKey contexts contextKey context'))
      else (none, none)
    | none => (none, none)

/-- `TabChatManager.updateChatHistory`: patch `chatHistory` and
`lastAccessedAt` of an existing record; leave the map unchanged when the
record does not exist. -/
def updateChatHistory (contexts : CtxMap) (tabId : Nat)
    (sessionKey : String) (chatHistory : List ChatMessage) (now : Int) :
    CtxMap :=
  let contextKey := generateContextKey tabId sessionKey
  match lookupKey contexts contextKey with
  | some context =>
    setKey contexts contextKey
      { context with chatHistory := chatHistory, lastAccessedAt := now }
  | none => contexts

/-- `TabChatManager.cleanupContexts`: drop records older than `MAX_AGE`,
sort the rest by `lastAccessedAt` descending (stable), keep the first
`MAX_CONTEXTS`. -/
def cleanupContexts (contexts : CtxMap) (now : Int) : CtxMap :=
  ((List.insertionSort
      (fun a b : String × TabChatContext =>
        b.2.lastAccessedAt ≤ a.2.lastAccessedAt)
      (contexts.filter
        (fun e => decide (now - e.2.lastAccessedAt < MAX_AGE)))).take
    MAX_CONTEXTS)

/-! ## Sample data used by witnesses -/

/-- A concrete stored context used by the session-manager witnesses. -/
def sampleCtx : TabChatContext where
  tabId := 7
  url := "https://a.com/x"
  title := "T"
  sessionKey := "s1"
  chatHistory := []
  pageContent := none
  createdAt := 0
  lastAccessedAt := 0

/-- A concrete stored map with `sampleCtx` under its composite key. -/
def sampleMap : CtxMap := [("tab_7_s1", sampleCtx)]

/-- A concrete chat message used by the session-manager witnesses. -/
def sampleMsg : ChatMessage where
  id := "m1"
  role := "user"
  content := "hi"
  timestamp := 3

/-- A concrete chunk used by the RAG witnesses. -/
def sampleChunk : MemoryChunk where
  id := "c0"
  sourceUrl := "u".data
  chunkText := "t".data
  embedding := []
  chunkIndex := 0
  createdAt := 0
  tags := []

/-! ## Association-list lemmas -/

theorem lookupKey_setKey_self {α : Type} (m : List (String × α)) (key : String) (v : α) :
    lookupKey (setKey m key v) key = some v := by
  induction m with
  | nil => simp [setKey, lookupKey]
  | cons e rest ih =>
    by_cases h : e.1 = key
    · simp [setKey, lookupKey, h]
    · simp [setKey, lookupKey, h, ih]

theorem lookupKey_setKey_ne {α : Type} (m : List (String × α)) (key k : String) (v : α)
    (h : k ≠ key) : lookupKey (setKey m key v) k = lookupKey m k := by
  induction m with
  | nil => simp [setKey, lookupKey, Ne.symm h]
  | cons e rest ih =>
    by_cases he : e.1 = key
    · simp [setKey, lookupKey, he, Ne.symm h]
    · simp only [setKey, if_neg he]
      by_cases hk : e.1 = k
      · simp [lookupKey, hk]
      · simp [lookupKey, hk, ih]

theorem lookupKey_mem {α : Type} (m : List (String × α)) (key : String) (v : α)
    (h : lookupKey m key = some v) : v ∈ m.map Prod.snd := by
  induction m with
  | nil => simp [lookupKey] at h
  | cons e rest ih =>
    by_cases he : e.1 = key
    · simp [lookupKey, he] at h
      simp [← h]
    · simp only [lookupKey, if_neg he] at h
      simp [ih h]

/-! ## Generic order lemmas for the stable sorts -/

theorem pairwise_take_drop {α : Type} {r : α → α → Prop} {l : List α}
    (h : List.Pairwise r l) (n : Nat) :
    ∀ a ∈ l.take n, ∀ b ∈ l.drop n, r a b := by
  have h' : List.Pairwise r (l.take n ++ l.drop n) := by
    rw [List.take_append_drop]; exact h
  exact (List.pairwise_append.mp h').2.2

theorem foldr_max_nonneg (l : List ℚ) : 0 ≤ l.foldr max 0 := by
  induction l with
  | nil => simp
  | cons x xs ih => exact le_trans ih (le_max_right x _)

/-! ## C7: cost estimation -/

/-- C7: `estimateModelCost(model, inputTokens, outputTokens)` equals
`(inputTokens/1000) * inputCostPer1K + (outputTokens/1000) * outputCostPer1K`
for the resolved model config, depends on its arguments only through the
resolved config and the token counts (so identical arguments always give
identical results), resolves unknown names to the `gpt-4o-mini` entry,
and prices a concrete example correctly. -/
theorem estimateModelCost_spec :
    (∀ name i o, estimateModelCost name i o =
        (i / 1000) * (getModelConfig name).inputCostPer1K +
        (o / 1000) * (getModelConfig name).outputCostPer1K)
    ∧ (∀ n₁ n₂ i o, getModelConfig n₁ = getModelConfig n₂ →
        estimateModelCost n₁ i o = estimateModelCost n₂ i o)
    ∧ (∀ name, lookupKey MODEL_CONFIGS name = none →
        getModelConfig name = gpt4oMiniConfig)
    ∧ estimateModelCost "gpt-3.5-turbo" 2000 1000 = 1/200 := by
  refine ⟨fun _ _ _ => rfl, ?_, ?_, ?_⟩
  · intro n₁ n₂ i o h
    simp [estimateModelCost, h]
  · intro name h
    simp [getModelConfig, h]
  · show (2000 / 1000 : ℚ) * gpt35TurboConfig.inputCostPer1K +
      (1000 / 1000 : ℚ) * gpt35TurboConfig.outputCostPer1K = 1/200
    norm_num [gpt35TurboConfig]

/-- C7 witness: an unknown model resolves to the same config as
`gpt-4o-mini`, hence the same cost. -/
theorem estimateModelCost_spec_witness :
    getModelConfig "unknown-model-xyz" = getModelConfig "gpt-4o-mini" ∧
    estimateModelCost "unknown-model-xyz" 500 500 =
      estimateModelCost "gpt-4o-mini" 500 500 :=
  ⟨rfl, estimateModelCost_spec.2.1 _ _ 500 500 rfl⟩

/-! ## C10: request-body construction -/

theorem additionalParams_empty (name : String) :
    (getModelConfig name).additionalParams = [] := by
  unfold getModelConfig
  rcases h : lookupKey MODEL_CONFIGS name with _ | c
  · rfl
  · have hc := lookupKey_mem _ _ _ h
    have hc' : c = gpt4oMiniConfig ∨ c = gpt35TurboConfig ∨ c = gpt5MiniConfig ∨
        c = o4MiniConfig ∨ c = localWasmConfig := by
      simpa [ MODEL_CONFIGS] using hc
    rcases hc' with rfl | rfl | rfl | rfl | rfl <;> rfl

/-- C10: the request body carries exactly one token-limit field —
`max_completion_tokens` when the resolved config asks for the alternate
name, `max_tokens` otherwise — and its value is the requested limit
clamped to the model's supported maximum. -/
theorem buildApiRequestBody_spec (modelName : String)
    (messages : List ChatReqMessage) (maxTokens : Nat) (temperature : Option ℚ) :
    (buildApiRequestBody modelName messages maxTokens temperature).countP
        (fun e => decide (e.1 = "max_tokens" ∨ e.1 = "max_completion_tokens")) = 1
    ∧ ((getModelConfig modelName).useMaxCompletionTokens = true →
        lookupKey (buildApiRequestBody modelName messages maxTokens temperature)
            "max_completion_tokens" =
          some (ReqValue.nat (min maxTokens (getModelConfig modelName).maxTokensSupported))
        ∧ lookupKey (buildApiRequestBody modelName messages maxTokens temperature)
            "max_tokens" = none)
    ∧ ((getModelConfig modelName).useMaxCompletionTokens = false →
        lookupKey (buildApiRequestBody modelName messages maxTokens temperature)
            "max_tokens" =
          some (ReqValue.nat (min maxTokens (getModelConfig modelName).maxTokensSupported))
        ∧ lookupKey (buildApiRequestBody modelName messages maxTokens temperature)
            "max_completion_tokens" = none)
    ∧ ((getModelConfig modelName).maxTokensSupported < maxTokens →
        min maxTokens (getModelConfig modelName).maxTokensSupported =
          (getModelConfig modelName).maxTokensSupported) := by
  have hadd := additionalParams_empty modelName
  refine ⟨?_, ?_, ?_, ?_⟩
  · unfold buildApiRequestBody
    cases h : (getModelConfig modelName).useMaxCompletionTokens <;>
      simp [h, hadd, List.countP_append, List.countP_cons]
  · intro h
    unfold buildApiRequestBody
    simp [h, hadd, lookupKey]
  · intro h
    unfold buildApiRequestBody
    simp [h, hadd, lookupKey]
  · intro h
    exact Nat.min_eq_right (Nat.le_of_lt h)

/-- C10 witness: for `o4-mini` the token limit travels as
`max_completion_tokens`, clamped from 999999 down to the supported
65536; no `max_tokens` field is present. -/
theorem buildApiRequestBody_spec_witness :
    (getModelConfig "o4-mini").useMaxCompletionTokens = true
    ∧ min 999999 (getModelConfig "o4-mini").maxTokensSupported = 65536
    ∧ lookupKey (buildApiRequestBody "o4-mini" [] 999999 none)
        "max_completion_tokens" = some (ReqValue.nat 65536)
    ∧ lookupKey (buildApiRequestBody "o4-mini" [] 999999 none)
        "max_tokens" = none := by
  have h := (buildApiRequestBody_spec "o4-mini" [] 999999 none).2.1 rfl
  refine ⟨rfl, by decide, ?_, h.2⟩
  have hmin : min 999999 (getModelConfig "o4-mini").maxTokensSupported = 65536 := by decide
  rw [← hmin]
  exact h.1

/-! ## C8: session lookup -/

/-- C8: `getTabContext` yields `null` without writing — and, being a
total function, without throwing — when the storage read fails, when no
record sits under the composite key, or when the stored record's url
differs from the requested one; on a hit it returns the record stamped
with `lastAccessedAt = now` and writes back a map holding exactly that
stamped record under the key. -/
theorem getTabContext_spec (read : Except Unit (Option CtxMap)) (tabId : Nat)
    (url sessionKey : String) (now : Int) :
    (read = .error () → getTabContext read tabId url sessionKey now = (none, none))
    ∧ (∀ stored, read = .ok stored →
        (lookupKey (stored.getD []) (generateContextKey tabId sessionKey) = none →
          getTabContext read tabId url sessionKey now = (none, none))
        ∧ (∀ c, lookupKey (stored.getD []) (generateContextKey tabId sessionKey) = some c →
            (c.url ≠ url → getTabContext read tabId url sessionKey now = (none, none))
            ∧ (c.url = url →
                getTabContext read tabId url sessionKey now =
                  (some { c with lastAccessedAt := now },
                   some (setKey (stored.getD []) (generateContextKey tabId sessionKey)
                      { c with lastAccessedAt := now }))
                ∧ lookupKey
                    (setKey (stored.getD []) (generateContextKey tabId sessionKey)
                      { c with lastAccessedAt := now })
                    (generateContextKey tabId sessionKey)
                    = some { c with lastAccessedAt := now }))) := by
  refine ⟨?_, ?_⟩
  · rintro rfl
    rfl
  · rintro stored rfl
    refine ⟨?_, ?_⟩
    · intro h
      simp [getTabContext, h]
    · intro c hc
      refine ⟨?_, ?_⟩
      · intro hurl
        simp [getTabContext, hc, hurl]
      · intro hurl
        refine ⟨?_, lookupKey_setKey_self _ _ _⟩
        simp [getTabContext, hc, hurl]

/-- C8 witness: a failed read yields `(null, no write)`; a hit on the
sample map returns the record restamped to the requested time. -/
theorem getTabContext_spec_witness :
    getTabContext (.error ()) 7 "https://a.com/x" "s1" 5 = (none, none)
    ∧ (getTabContext (.ok (some sampleMap)) 7 "https://a.com/x" "s1" 5).1
        = some { sampleCtx with lastAccessedAt := 5 }
    ∧ getTabContext (.ok (some sampleMap)) 7 "https://b.com/y" "s1" 5 = (none, none) := by
  have h1 := (getTabContext_spec (.error ()) 7 "https://a.com/x" "s1" 5).1 rfl
  have h2 := (((getTabContext_spec (.ok (some sampleMap)) 7 "https://a.com/x" "s1" 5).2
      (some sampleMap) rfl).2 sampleCtx (by decide)).2 rfl
  have h3 := (((getTabContext_spec (.ok (some sampleMap)) 7 "https://b.com/y" "s1" 5).2
      (some sampleMap) rfl).2 sampleCtx (by decide)).1 (by decide)
  exact ⟨h1, by rw [h2.1], h3⟩

/-! ## C9: history update -/

/-- C9: when a record exists under the composite key,
`updateChatHistory` rewrites exactly its `chatHistory` and
`lastAccessedAt` fields — all other fields of the record and all other
keys of the map read back unchanged — and when no record exists the
stored map is returned untouched (a no-op, not an error). -/
theorem updateChatHistory_spec (contexts : CtxMap) (tabId : Nat)
    (sessionKey : String) (chatHistory : List ChatMessage) (now : Int) :
    (lookupKey contexts (generateContextKey tabId sessionKey) = none →
      updateChatHistory contexts tabId sessionKey chatHistory now = contexts)
    ∧ (∀ c, lookupKey contexts (generateContextKey tabId sessionKey) = some c →
        lookupKey (updateChatHistory contexts tabId sessionKey chatHistory now)
            (generateContextKey tabId sessionKey)
          = some { c with chatHistory := chatHistory, lastAccessedAt := now }
        ∧ ({ c with chatHistory := chatHistory, lastAccessedAt := now }.tabId = c.tabId
           ∧ { c with chatHistory := chatHistory, lastAccessedAt := now }.url = c.url
           ∧ { c with chatHistory := chatHistory, lastAccessedAt := now }.title = c.title
           ∧ { c with chatHistory := chatHistory, lastAccessedAt := now }.sessionKey = c.sessionKey
           ∧ { c with chatHistory := chatHistory, lastAccessedAt := now }.createdAt = c.createdAt
           ∧ { c with chatHistory := chatHistory, lastAccessedAt := now }.pageContent = c.pageContent
           ∧ { c with chatHistory := chatHistory, lastAccessedAt := now }.chatHistory = chatHistory
           ∧ { c with chatHistory := chatHistory, lastAccessedAt := now }.lastAccessedAt = now)
        ∧ ∀ k, k ≠ generateContextKey tabId sessionKey →
            lookupKey (updateChatHistory contexts tabId sessionKey chatHistory now) k
              = lookupKey contexts k) := by
  refine ⟨?_, ?_⟩
  · intro h
    simp [updateChatHistory, h]
  · intro c hc
    refine ⟨?_, ⟨rfl, rfl, rfl, rfl, rfl, rfl, rfl, rfl⟩, ?_⟩
    · simp only [updateChatHistory, hc]
      exact lookupKey_setKey_self _ _ _
    · intro k hk
      simp only [updateChatHistory, hc]
      exact lookupKey_setKey_ne _ _ _ _ hk

/-- C9 witness: updating the sample map rewrites the stored record's
history and timestamp, and a missing record leaves the map untouched. -/
theorem updateChatHistory_spec_witness :
    lookupKey (updateChatHistory sampleMap 7 "s1" [sampleMsg] 5) "tab_7_s1"
      = some { sampleCtx with chatHistory := [sampleMsg], lastAccessedAt := 5 }
    ∧ updateChatHistory sampleMap 9 "s9" [] 5 = sampleMap := by
  refine ⟨?_, ?_⟩
  · have h := ((updateChatHistory_spec sampleMap 7 "s1"
        [sampleMsg] 5).2 sampleCtx (by decide)).1
    have hkey : generateContextKey 7 "s1" = "tab_7_s1" := by decide
    rw [hkey] at h
    exact h
  · exact (updateChatHistory_spec sampleMap 9 "s9" [] 5).1 (by decide)

/-! ## C3: eviction -/

/-- C3: after `cleanupContexts`, every survivor was accessed within
`MAX_AGE` of `now`, at most `MAX_CONTEXTS` records remain, exactly
`min MAX_CONTEXTS (size of the age window)` records remain, every
survivor is a stored record inside the age window, and no evicted
record inside the age window was accessed more recently than any
survivor — the survivors are the most-recently-accessed records of the
window. -/
theorem cleanupContexts_spec (contexts : CtxMap) (now : Int) :
    (∀ e ∈ cleanupContexts contexts now, now - e.2.lastAccessedAt ≤ MAX_AGE)
    ∧ (cleanupContexts contexts now).length ≤ MAX_CONTEXTS
    ∧ (cleanupContexts contexts now).length =
        min MAX_CONTEXTS
          (contexts.filter
            (fun e => decide (now - e.2.lastAccessedAt < MAX_AGE))).length
    ∧ (∀ e ∈ cleanupContexts contexts now,
        e ∈ contexts ∧ now - e.2.lastAccessedAt < MAX_AGE)
    ∧ (∀ s ∈ cleanupContexts contexts now,
        ∀ w ∈ contexts.filter
            (fun e => decide (now - e.2.lastAccessedAt < MAX_AGE)),
          w ∉ cleanupContexts contexts now →
            w.2.lastAccessedAt ≤ s.2.lastAccessedAt) := by
  classical
  set r : (String × TabChatContext) → (String × TabChatContext) → Prop :=
    fun a b => b.2.lastAccessedAt ≤ a.2.lastAccessedAt with hr
  haveI : IsTotal (String × TabChatContext) r :=
    ⟨fun a b => le_total b.2.lastAccessedAt a.2.lastAccessedAt⟩
  haveI : IsTrans (String × TabChatContext) r :=
    ⟨fun _ _ _ hab hbc => le_trans hbc hab⟩
  set window : CtxMap :=
    contexts.filter (fun e => decide (now - e.2.lastAccessedAt < MAX_AGE))
    with hwindow
  set sorted : CtxMap := List.insertionSort r window with hsorted
  have hperm : sorted.Perm window := List.perm_insertionSort r window
  have hpair : List.Pairwise r sorted := List.sorted_insertionSort r window
  have hclean : cleanupContexts contexts now = sorted.take MAX_CONTEXTS := rfl
  have hmemwin : ∀ e ∈ cleanupContexts contexts now, e ∈ window := by
    intro e he
    rw [hclean] at he
    exact hperm.mem_iff.mp (List.take_subset _ _ he)
  have hwin_props : ∀ e ∈ window,
      e ∈ contexts ∧ now - e.2.lastAccessedAt < MAX_AGE := by
    intro e he
    rw [hwindow] at he
    have := List.mem_filter.mp he
    exact ⟨this.1, by simpa using this.2⟩
  refine ⟨?_, ?_, ?_, ?_, ?_⟩
  · intro e he
    exact le_of_lt (hwin_props e (hmemwin e he)).2
  · rw [hclean, List.length_take]
    exact Nat.min_le_left _ _
  · rw [hclean, List.length_take, hperm.length_eq]
  · intro e he
    exact hwin_props e (hmemwin e he)
  · intro s hs w hw hnot
    have hw' : w ∈ sorted := hperm.mem_iff.mpr hw
    have hsplit := List.take_append_drop MAX_CONTEXTS sorted
    have hw'' : w ∈ sorted.take MAX_CONTEXTS ∨ w ∈ sorted.drop MAX_CONTEXTS := by
      rw [← List.mem_append, hsplit]
      exact hw'
    rcases hw'' with hw'' | hw''
    · exact absurd (hclean ▸ hw'') hnot
    · have hs' : s ∈ sorted.take MAX_CONTEXTS := hclean ▸ hs
      exact pairwise_take_drop hpair MAX_CONTEXTS s hs' w hw''

/-- C3 witness: on a two-record store where one record is stale, cleanup
keeps exactly the fresh record, within the count cap. -/
theorem cleanupContexts_spec_witness :
    cleanupContexts
        [("tab_7_s1", sampleCtx),
         ("tab_8_s2", { sampleCtx with tabId := 8, lastAccessedAt := -90000000 })]
        3
      = [("tab_7_s1", sampleCtx)]
    ∧ (cleanupContexts [("tab_7_s1", sampleCtx)] 3).length ≤ MAX_CONTEXTS := by
  exact ⟨by decide, (cleanupContexts_spec [("tab_7_s1", sampleCtx)] 3).2.1⟩

/-! ## C4: retrieval -/

/-- C4: `searchRelevantChunks` returns at most `topK` chunks, each drawn
from the input and scoring at least the 0.7 similarity threshold, in
descending-score order; the empty chunk set yields the empty result (a
normal outcome, not an error), and a qualifying chunk is only ever left
out when the result already holds `topK` chunks. -/
theorem searchRelevantChunks_spec (query : List Char)
    (chunks : List MemoryChunk) (topK : Nat) :
    (chunks = [] → searchRelevantChunks query chunks topK = [])
    ∧ (searchRelevantChunks query chunks topK).length ≤ topK
    ∧ (∀ c ∈ searchRelevantChunks query chunks topK,
        c ∈ chunks ∧ SIMILARITY_THRESHOLD ≤ computeRelevanceScore query c.chunkText)
    ∧ List.Sorted
        (fun a b => computeRelevanceScore query b.chunkText ≤
          computeRelevanceScore query a.chunkText)
        (searchRelevantChunks query chunks topK)
    ∧ (∀ c ∈ chunks, SIMILARITY_THRESHOLD ≤ computeRelevanceScore query c.chunkText →
        c ∉ searchRelevantChunks query chunks topK →
        (searchRelevantChunks query chunks topK).length = topK) := by
  classical
  by_cases hc : chunks.length = 0
  · have hnil : chunks = [] := List.length_eq_zero.mp hc
    subst hnil
    refine ⟨fun _ => rfl, ?_, ?_, ?_, ?_⟩ <;>
      simp [searchRelevantChunks]
  · set score : MemoryChunk → ℚ :=
      fun c => computeRelevanceScore query c.chunkText with hscore
    set scored : List (MemoryChunk × ℚ) :=
      chunks.map (fun c => (c, score c)) with hscored
    set r : (MemoryChunk × ℚ) → (MemoryChunk × ℚ) → Prop :=
      fun a b => b.2 ≤ a.2 with hrdef
    haveI : IsTotal (MemoryChunk × ℚ) r := ⟨fun a b => le_total b.2 a.2⟩
    haveI : IsTrans (MemoryChunk × ℚ) r := ⟨fun _ _ _ hab hbc => le_trans hbc hab⟩
    set sorted : List (MemoryChunk × ℚ) := List.insertionSort r scored
      with hsorteddef
    set filtered : List (MemoryChunk × ℚ) :=
      (sorted.take topK).filter (fun p => decide (SIMILARITY_THRESHOLD ≤ p.2))
      with hfiltered
    have heq : searchRelevantChunks query chunks topK = filtered.map Prod.fst := by
      rw [searchRelevantChunks, if_neg hc]
    have hperm : sorted.Perm scored := List.perm_insertionSort r scored
    have hpair : List.Pairwise r sorted := List.sorted_insertionSort r scored
    have hsnd : ∀ p ∈ sorted, p.2 = score p.1 := by
      intro p hp
      have hp' : p ∈ scored := hperm.mem_iff.mp hp
      rw [hscored] at hp'
      rcases List.mem_map.mp hp' with ⟨c, _, rfl⟩
      rfl
    have hfilter_sub : ∀ p ∈ filtered, p ∈ sorted := by
      intro p hp
      rw [hfiltered] at hp
      exact List.take_subset _ _ (List.mem_of_mem_filter hp)
    refine ⟨?_, ?_, ?_, ?_, ?_⟩
    · intro h
      rw [h] at hc
      simp at hc
    · rw [heq, List.length_map]
      calc filtered.length ≤ (sorted.take topK).length :=
            List.length_filter_le _ _
        _ ≤ topK := by rw [List.length_take]; exact Nat.min_le_left _ _
    · intro c hcmem
      rw [heq] at hcmem
      rcases List.mem_map.mp hcmem with ⟨p, hp, rfl⟩
      have hps := hfilter_sub p hp
      have hval := hsnd p hps
      have hpthresh : SIMILARITY_THRESHOLD ≤ p.2 := by
        rw [hfiltered] at hp
        have := (List.mem_filter.mp hp).2
        simpa using this
      have hporig : p.1 ∈ chunks := by
        have hp' : p ∈ scored := hperm.mem_iff.mp hps
        rw [hscored] at hp'
        rcases List.mem_map.mp hp' with ⟨c', hc', rfl⟩
        exact hc'
      refine ⟨hporig, ?_⟩
      show SIMILARITY_THRESHOLD ≤ score p.1
      rw [← hval]
      exact hpthresh
    · rw [heq]
      have hpair_filtered : List.Pairwise r filtered := by
        rw [hfiltered]
        exact List.Pairwise.sublist
          ((List.filter_sublist _).trans (List.take_sublist _ _)) hpair
      have : List.Pairwise (fun p q : MemoryChunk × ℚ => score q.1 ≤ score p.1)
          filtered := by
        refine hpair_filtered.imp_of_mem ?_
        intro p q hp hq hpq
        rw [← hsnd p (hfilter_sub p hp), ← hsnd q (hfilter_sub q hq)]
        exact hpq
      exact List.pairwise_map.mpr this
    · intro c hcmem hthresh hnot
      have hpscored : (c, score c) ∈ scored := by
        rw [hscored]
        exact List.mem_map_of_mem _ hcmem
      have hpsorted : (c, score c) ∈ sorted := hperm.mem_iff.mpr hpscored
      have hsplit : (c, score c) ∈ sorted.take topK ∨
          (c, score c) ∈ sorted.drop topK := by
        rw [← List.mem_append, List.take_append_drop]
        exact hpsorted
      rcases hsplit with htake | hdrop
      · exfalso
        apply hnot
        rw [heq]
        refine List.mem_map_of_mem Prod.fst (List.mem_filter.mpr ⟨htake, ?_⟩)
        simpa using hthresh
      · have hlen : topK < sorted.length := by
          by_contra hle
          push_neg at hle
          rw [List.drop_eq_nil_of_le hle] at hdrop
          simp at hdrop
        have htklen : (sorted.take topK).length = topK := by
          rw [List.length_take]
          exact Nat.min_eq_left (le_of_lt hlen)
        have hall : ∀ q ∈ sorted.take topK,
            (fun p : MemoryChunk × ℚ => decide (SIMILARITY_THRESHOLD ≤ p.2)) q
              = true := by
          intro q hq
          have hr := pairwise_take_drop hpair topK q hq _ hdrop
          have : SIMILARITY_THRESHOLD ≤ q.2 := le_trans hthresh hr
          simpa using this
        have hfeq : filtered = sorted.take topK := by
          rw [hfiltered]
          exact List.filter_eq_self.mpr hall
        rw [heq, List.length_map, hfeq, htklen]

/-- C4 witness: the empty chunk set retrieves the empty list, and a
singleton chunk set retrieves at most `topK = 5` chunks. -/
theorem searchRelevantChunks_spec_witness :
    searchRelevantChunks "experience".data [] 5 = []
    ∧ (searchRelevantChunks "experience".data [sampleChunk] 5).length ≤ 5 :=
  ⟨(searchRelevantChunks_spec "experience".data [] 5).1 rfl,
   (searchRelevantChunks_spec "experience".data [sampleChunk] 5).2.1⟩

/-! ## C5: context assembly -/

theorem trimChars_length_le (l : List Char) : (trimChars l).length ≤ l.length := by
  unfold trimChars
  calc ((l.dropWhile Char.isWhitespace).reverse.dropWhile
          Char.isWhitespace).reverse.length
      = ((l.dropWhile Char.isWhitespace).reverse.dropWhile
          Char.isWhitespace).length := List.length_reverse _
    _ ≤ (l.dropWhile Char.isWhitespace).reverse.length :=
        (List.dropWhile_sublist _).length_le
    _ = (l.dropWhile Char.isWhitespace).length := List.length_reverse _
    _ ≤ l.length := (List.dropWhile_sublist _).length_le

theorem buildContextLoop_prefix (cs : List MemoryChunk) (len : Nat) :
    ∃ k, buildContextLoop cs len = ((cs.take k).map sourceBlock).flatten := by
  induction cs generalizing len with
  | nil => exact ⟨0, rfl⟩
  | cons c rest ih =>
    by_cases h : MAX_CONTEXT_LENGTH < len + (sourceBlock c).length
    · refine ⟨0, ?_⟩
      simp [buildContextLoop, h]
    · rcases ih (len + (sourceBlock c).length) with ⟨k, hk⟩
      refine ⟨k + 1, ?_⟩
      simp only [buildContextLoop, if_neg h, List.take_succ_cons, List.map_cons,
        List.flatten_cons]
      rw [hk]

theorem buildContextLoop_length (cs : List MemoryChunk) (len : Nat) :
    buildContextLoop cs len = [] ∨
      len + (buildContextLoop cs len).length ≤ MAX_CONTEXT_LENGTH := by
  induction cs generalizing len with
  | nil => exact Or.inl rfl
  | cons c rest ih =>
    by_cases h : MAX_CONTEXT_LENGTH < len + (sourceBlock c).length
    · exact Or.inl (by simp [buildContextLoop, h])
    · push_neg at h
      right
      rcases ih (len + (sourceBlock c).length) with hnil | hle
      · simp [buildContextLoop, not_lt.mpr h, hnil]
        omega
      · simp only [buildContextLoop, if_neg (not_lt.mpr h), List.length_append]
        omega

theorem blocks_getLast (cs : List MemoryChunk) :
    (cs.map sourceBlock).flatten = [] ∨
      ((cs.map sourceBlock).flatten).getLast? = some '\n' := by
  induction cs with
  | nil => exact Or.inl rfl
  | cons c rest ih =>
    right
    rw [List.map_cons, List.flatten_cons, List.getLast?_append]
    rcases ih with hnil | hlast
    · rw [hnil]
      have hblock : (sourceBlock c).getLast? = some '\n' := by
        unfold sourceBlock
        rw [List.getLast?_append, List.getLast?_append, List.getLast?_append,
          List.getLast?_append]
        rfl
      rw [hblock]
      rfl
    · rw [hlast]
      rfl

/-- C5 counterexample: for one chunk with url `u` and text `t` the
assembled context is `[Source: u]\nt` — the final `trim()` has removed
the block's trailing blank line, so the result is not a concatenation
of whole `[Source: <url>]\n<chunkText>\n\n` blocks, contradicting the
claim as stated. -/
theorem buildContextText_counterexample :
    buildContextText [sampleChunk] = "[Source: u]\nt".data
    ∧ ¬ IsBlockConcat (buildContextText [sampleChunk]) := by
  have hres : buildContextText [sampleChunk] = "[Source: u]\nt".data := by decide
  refine ⟨hres, ?_⟩
  rintro ⟨cs, hcs⟩
  rcases blocks_getLast cs with hnil | hlast
  · rw [hnil] at hcs
    rw [hres] at hcs
    simp at hcs
  · rw [← hcs, hres] at hlast
    have : ('t' : Char) = '\n' := by
      have hv : ("[Source: u]\nt".data).getLast? = some 't' := by decide
      rw [hv] at hlast
      exact Option.some.inj hlast
    simp at this

/-- C5 (amended): the assembled context string is the whitespace-trim of
a concatenation of whole `[Source: <url>]\n<chunkText>\n\n` blocks of a
prefix of the surviving chunks, in the given order; the pre-trim
concatenation never exceeds the 4000-character budget — a chunk whose
block would overflow it is excluded whole, never truncated mid-chunk —
and hence the result stays within the budget too. -/
theorem buildContextText_spec (chunks : List MemoryChunk) :
    ∃ k, buildContextText chunks =
        trimChars (((chunks.take k).map sourceBlock).flatten)
      ∧ (((chunks.take k).map sourceBlock).flatten).length ≤ MAX_CONTEXT_LENGTH
      ∧ (buildContextText chunks).length ≤ MAX_CONTEXT_LENGTH := by
  by_cases h : chunks.length = 0
  · have hnil : chunks = [] := List.length_eq_zero.mp h
    subst hnil
    exact ⟨0, rfl, by simp [ MAX_CONTEXT_LENGTH], by simp [buildContextText]⟩
  · have heq : buildContextText chunks = trimChars (buildContextLoop chunks 0) := by
      rw [buildContextText, if_neg h]
    rcases buildContextLoop_prefix chunks 0 with ⟨k, hk⟩
    have hlen : (buildContextLoop chunks 0).length ≤ MAX_CONTEXT_LENGTH := by
      rcases buildContextLoop_length chunks 0 with hnil | hle
      · rw [hnil]
        simp [ MAX_CONTEXT_LENGTH]
      · omega
    refine ⟨k, ?_, ?_, ?_⟩
    · rw [heq, hk]
    · rw [← hk]
      exact hlen
    · rw [heq]
      exact le_trans (trimChars_length_le _) hlen

/-! ## C2: chunking -/

theorem filter_dropWhile_ws (l : List Char) :
    (l.dropWhile Char.isWhitespace).filter (fun c => !c.isWhitespace) =
      l.filter (fun c => !c.isWhitespace) := by
  induction l with
  | nil => rfl
  | cons c rest ih =>
    by_cases h : Char.isWhitespace c
    · rw [List.dropWhile_cons]
      simp only [h, if_true, List.filter_cons]
      simp [h, ih]
    · rw [List.dropWhile_cons]
      simp [h]

theorem filter_trimChars (l : List Char) :
    (trimChars l).filter (fun c => !c.isWhitespace) =
      l.filter (fun c => !c.isWhitespace) := by
  unfold trimChars
  rw [List.filter_reverse, filter_dropWhile_ws, List.filter_reverse,
    filter_dropWhile_ws, List.reverse_reverse]

theorem lastBreakIdx_le (l : List Char) (bound j : Nat)
    (h : lastBreakIdx l bound = some j) : j ≤ bound := by
  unfold lastBreakIdx at h
  have hmem := List.mem_of_getLast?_eq_some h
  have := List.mem_range.mp (List.mem_of_mem_filter hmem)
  omega

theorem chunkCut_pos (text : List Char) (maxChunkSize : Nat)
    (h1 : 1 ≤ maxChunkSize) (h2 : 1 ≤ text.length) :
    1 ≤ chunkCut text maxChunkSize := by
  have hmin : 1 ≤ min maxChunkSize text.length := le_min h1 h2
  unfold chunkCut
  split
  · split
    · split
      · omega
      · exact hmin
    · exact hmin
  · exact hmin

theorem chunkCut_le (text : List Char) (maxChunkSize : Nat) :
    chunkCut text maxChunkSize ≤ maxChunkSize + 1 := by
  have hmin : min maxChunkSize text.length ≤ maxChunkSize :=
    Nat.min_le_left _ _
  unfold chunkCut
  split
  · split
    · rename_i j heq
      have hj := lastBreakIdx_le text maxChunkSize j heq
      split
      · omega
      · omega
    · omega
  · omega

theorem chunkTextGo_decomp (maxChunkSize : Nat) (h1 : 1 ≤ maxChunkSize) :
    ∀ fuel (text : List Char), text.length ≤ fuel →
      ∃ segs : List (List Char), segs.flatten = text ∧
        chunkTextGo fuel text maxChunkSize =
          (segs.map trimChars).filter (fun c => !c.isEmpty) := by
  intro fuel
  induction fuel with
  | zero =>
    intro text hlen
    have : text = [] := List.eq_nil_of_length_eq_zero (Nat.le_zero.mp hlen)
    subst this
    exact ⟨[], rfl, rfl⟩
  | succ fuel ih =>
    intro text hlen
    by_cases htext : text.length = 0
    · have : text = [] := List.eq_nil_of_length_eq_zero htext
      subst this
      exact ⟨[], rfl, rfl⟩
    · have hpos : 1 ≤ text.length := Nat.one_le_iff_ne_zero.mpr htext
      have hcutpos := chunkCut_pos text maxChunkSize h1 hpos
      have hresthlen : (text.drop (chunkCut text maxChunkSize)).length ≤ fuel := by
        rw [List.length_drop]
        omega
      rcases ih (text.drop (chunkCut text maxChunkSize)) hresthlen with
        ⟨segs, hflat, hgo⟩
      refine ⟨text.take (chunkCut text maxChunkSize) :: segs, ?_, ?_⟩
      · rw [List.flatten_cons, hflat, List.take_append_drop]
      · rw [List.map_cons, List.filter_cons]
        by_cases hempty : (trimChars (text.take (chunkCut text maxChunkSize))).isEmpty
        · rw [chunkTextGo, if_neg htext, if_pos hempty, hgo]
          simp [hempty]
        · rw [chunkTextGo, if_neg htext, if_neg hempty, hgo]
          simp [hempty]

theorem chunkTextGo_lengths (maxChunkSize : Nat) :
    ∀ fuel (text : List Char), ∀ c ∈ chunkTextGo fuel text maxChunkSize,
      1 ≤ c.length ∧ c.length ≤ maxChunkSize + 1 := by
  intro fuel
  induction fuel with
  | zero =>
    intro text c hc
    simp [chunkTextGo] at hc
  | succ fuel ih =>
    intro text c hc
    by_cases htext : text.length = 0
    · rw [chunkTextGo, if_pos htext] at hc
      simp at hc
    · by_cases hempty : (trimChars (text.take (chunkCut text maxChunkSize))).isEmpty
      · rw [chunkTextGo, if_neg htext, if_pos hempty] at hc
        exact ih _ c hc
      · rw [chunkTextGo, if_neg htext, if_neg hempty] at hc
        rcases List.mem_cons.mp hc with rfl | hc'
        · constructor
          · have : trimChars (text.take (chunkCut text maxChunkSize)) ≠ [] := by
              intro hnil
              rw [hnil] at hempty
              exact hempty rfl
            exact Nat.one_le_iff_ne_zero.mpr
              (fun h0 => this (List.eq_nil_of_length_eq_zero h0))
          · calc (trimChars (text.take (chunkCut text maxChunkSize))).length
                ≤ (text.take (chunkCut text maxChunkSize)).length :=
                  trimChars_length_le _
              _ ≤ chunkCut text maxChunkSize := by
                  rw [List.length_take]; exact Nat.min_le_left _ _
              _ ≤ maxChunkSize + 1 := chunkCut_le _ _
        · exact ih _ c hc'

theorem trimmed_chunks_filter_flatten (segs : List (List Char)) :
    (((segs.map trimChars).filter (fun c => !c.isEmpty)).map
        (fun c => c.filter (fun ch => !ch.isWhitespace))).flatten
      = (segs.flatten).filter (fun ch => !ch.isWhitespace) := by
  induction segs with
  | nil => rfl
  | cons s rest ih =>
    rw [List.map_cons, List.filter_cons, List.flatten_cons, List.filter_append]
    by_cases hempty : (trimChars s).isEmpty
    · have hnil : trimChars s = [] := by
        cases htc : trimChars s with
        | nil => rfl
        | cons x xs => rw [htc] at hempty; simp at hempty
      have : s.filter (fun ch => !ch.isWhitespace) = [] := by
        rw [← filter_trimChars, hnil]
        rfl
      simp only [hempty, Bool.not_true, if_false, cond_false]
      rw [this, List.nil_append]
      exact ih
    · simp only [hempty, Bool.not_false, if_true, cond_true]
      rw [List.map_cons, List.flatten_cons, filter_trimChars, ih]

/-- C2: for positive target chunk sizes the chunker cuts the text into
consecutive segments — a finite, ordered, non-overlapping cover of the
whole input — of which it returns the whitespace-trims of the nonempty
ones, so concatenating the chunks recovers the input's non-whitespace
character sequence exactly; every chunk is nonempty and at most
`maxChunkSize + 1` characters long, which for `maxChunkSize ≥ 3` (in
particular for the default 1000) is within the claimed ~1.43× bound. -/
theorem chunkText_spec (text : List Char) (maxChunkSize : Nat)
    (h : 1 ≤ maxChunkSize) :
    (∃ segs : List (List Char), segs.flatten = text ∧
        chunkText text maxChunkSize =
          (segs.map trimChars).filter (fun c => !c.isEmpty))
    ∧ ((chunkText text maxChunkSize).map
          (fun c => c.filter (fun ch => !ch.isWhitespace))).flatten
        = text.filter (fun ch => !ch.isWhitespace)
    ∧ (∀ c ∈ chunkText text maxChunkSize,
        1 ≤ c.length ∧ c.length ≤ maxChunkSize + 1
        ∧ (3 ≤ maxChunkSize → 100 * c.length ≤ 143 * maxChunkSize)) := by
  rcases chunkTextGo_decomp maxChunkSize h text.length text le_rfl with
    ⟨segs, hflat, hgo⟩
  have hdecomp : ∃ segs : List (List Char), segs.flatten = text ∧
      chunkText text maxChunkSize =
        (segs.map trimChars).filter (fun c => !c.isEmpty) :=
    ⟨segs, hflat, hgo⟩
  refine ⟨hdecomp, ?_, ?_⟩
  · show ((chunkText text maxChunkSize).map
        (fun c => c.filter (fun ch => !ch.isWhitespace))).flatten
      = text.filter (fun ch => !ch.isWhitespace)
    have hct : chunkText text maxChunkSize =
        chunkTextGo text.length text maxChunkSize := rfl
    rw [hct, hgo, trimmed_chunks_filter_flatten, hflat]
  · intro c hc
    have hb := chunkTextGo_lengths maxChunkSize text.length text c hc
    refine ⟨hb.1, hb.2, ?_⟩
    intro h3
    have := hb.2
    omega

/-- C2 witness: chunking `"Hi there. Bye"` at target size 10 cuts after
the sentence terminator, preserves the non-whitespace characters, and
respects the size bounds. -/
theorem chunkText_spec_witness :
    (1 : Nat) ≤ 10
    ∧ chunkText "Hi there. Bye".data 10 = ["Hi there.".data, "Bye".data]
    ∧ ((chunkText "Hi there. Bye".data 10).map
          (fun c => c.filter (fun ch => !ch.isWhitespace))).flatten
        = "Hi there. Bye".data.filter (fun ch => !ch.isWhitespace) :=
  ⟨by decide, by decide, (chunkText_spec "Hi there. Bye".data 10 (by decide)).2.1⟩

/-! ## C1: relevance scoring -/

theorem wordScore_foldl_eq (qw : List Char) (cws : List (List Char)) :
    ∀ init : ℚ, 0 ≤ init →
      cws.foldl
        (fun acc cw =>
          if qw <:+: cw ∨ cw <:+: qw then
            max acc ((qw.length : ℚ) / (max qw.length cw.length : ℕ))
          else acc) init
      = max init (specBestMatch qw cws) := by
  induction cws with
  | nil =>
    intro init h0
    simp only [List.foldl_nil, specBestMatch, List.map_nil, List.foldr_nil]
    exact (max_eq_left h0).symm
  | cons cw rest ih =>
    intro init h0
    have hspec : specBestMatch qw (cw :: rest) =
        max (if qw <:+: cw ∨ cw <:+: qw then
              (qw.length : ℚ) / (max qw.length cw.length : ℕ)
            else 0)
          (specBestMatch qw rest) := rfl
    rw [List.foldl_cons, hspec]
    by_cases hm : qw <:+: cw ∨ cw <:+: qw
    · rw [if_pos hm, if_pos hm,
        ih _ (le_trans h0 (le_max_left _ _)), max_assoc]
    · rw [if_neg hm, if_neg hm, ih _ h0]
      congr 1
      exact (max_eq_right (foldr_max_nonneg _)).symm

theorem wordScore_eq_specBestMatch (qw : List Char) (cws : List (List Char)) :
    wordScore qw cws = specBestMatch qw cws := by
  rw [wordScore, wordScore_foldl_eq qw cws 0 le_rfl]
  exact max_eq_right (foldr_max_nonneg _)

theorem score_foldl_eq (w : List Char → ℚ) (ws : List (List Char)) :
    ∀ init : ℚ,
      ws.foldl (fun s qw => if qw.length < 3 then s else s + w qw) init
      = init + ((ws.filter (fun t => decide (3 ≤ t.length))).map w).sum := by
  induction ws with
  | nil =>
    intro init
    simp
  | cons qw rest ih =>
    intro init
    rw [List.foldl_cons, List.filter_cons]
    by_cases h : qw.length < 3
    · rw [if_pos h]
      have : (decide (3 ≤ qw.length)) = false := by simpa using h
      rw [this]
      exact ih init
    · rw [if_neg h]
      have : (decide (3 ≤ qw.length)) = true := by simpa using Nat.le_of_not_lt h
      rw [this]
      simp only [if_true, List.map_cons, List.sum_cons]
      rw [ih (init + w qw), add_assoc]

/-- C1 (amended): the relevance scorer tokenizes the lower-cased query
and chunk on whitespace, skips query tokens shorter than 3 characters,
takes for each remaining query token the best partial-containment match
over the chunk tokens — scoring a matching pair as
`len(query_token) / max(len(query_token), len(chunk_token))` (not
`min/max`: when the chunk token is contained in the query token the
score is 1.0) and 0 otherwise — sums the best-per-token scores and
divides by the total unfiltered query token count. -/
theorem computeRelevanceScore_spec (query chunkText : List Char) :
    computeRelevanceScore query chunkText = specRelevanceScore query chunkText := by
  unfold computeRelevanceScore specRelevanceScore
  set qws := jsSplitWs (query.map Char.toLower) with hqws
  set cws := jsSplitWs (chunkText.map Char.toLower) with hcws
  simp only
  rw [score_foldl_eq (fun qw => wordScore qw cws) qws 0, zero_add]
  have hmap : (qws.filter (fun t => decide (3 ≤ t.length))).map
        (fun qw => wordScore qw cws)
      = (qws.filter (fun t => decide (3 ≤ t.length))).map
        (fun qw => specBestMatch qw cws) :=
    List.map_congr_left (fun qw _ => wordScore_eq_specBestMatch qw cws)
  rw [hmap]
  by_cases hlen : 0 < qws.length
  · rw [if_pos hlen]
  · rw [if_neg hlen]
    have h0 : qws.length = 0 := Nat.eq_zero_of_not_pos hlen
    rw [h0]
    norm_num

/-- C1 counterexample: for query `"abcd"` and chunk `"abc"` the source
scorer returns 1 (the chunk token is a substring of the query token, so
`len(query)/max = 4/4`), while the claimed `min/max` formula yields
`3/4`. -/
theorem computeRelevanceScore_counterexample :
    computeRelevanceScore "abcd".data "abc".data = 1
    ∧ claimRelevanceScore "abcd".data "abc".data = 3/4
    ∧ (1 : ℚ) ≠ 3/4 := by
  have h1 : jsSplitWs ("abcd".data.map Char.toLower) = ["abcd".data] := by decide
  have h2 : jsSplitWs ("abc".data.map Char.toLower) = ["abc".data] := by decide
  refine ⟨?_, ?_, by norm_num⟩
  · rw [computeRelevanceScore, h1, h2]
    simp +decide [wordScore]
    norm_num [max_def]
  · rw [claimRelevanceScore, h1, h2]
    simp +decide [claimBestMatch]
    norm_num

/-! ## C6: fallback embedding -/

theorem charCounts_foldl (text : List Char) :
    ∀ (v : Fin EMBED_DIM → ℕ) (i : Fin EMBED_DIM),
      (text.foldl
        (fun v c =>
          fun i => if i.val = c.toNat % EMBED_DIM then v i + 1 else v i) v) i
      = v i + (text.filter (fun c => decide (c.toNat % EMBED_DIM = i.val))).length := by
  induction text with
  | nil =>
    intro v i
    simp
  | cons c rest ih =>
    intro v i
    rw [List.foldl_cons, ih, List.filter_cons]
    by_cases h : c.toNat % EMBED_DIM = i.val
    · have h' : i.val = c.toNat % EMBED_DIM := h.symm
      rw [if_pos h', decide_eq_true h, if_pos rfl, List.length_cons]
      omega
    · have h' : ¬ i.val = c.toNat % EMBED_DIM := fun hh => h hh.symm
      rw [if_neg h', decide_eq_false h, if_neg Bool.false_ne_true]

theorem charCounts_count (text : List Char) (i : Fin EMBED_DIM) :
    charCounts text i =
      (text.filter (fun c => decide (c.toNat % EMBED_DIM = i.val))).length := by
  rw [charCounts, charCounts_foldl]
  omega

/-- C6: the fallback embedding is the 384-bucket character histogram —
bucket `i` holds the number of characters with `charCode % 384 = i` —
L2-normalized: for nonempty text each coordinate is the bucket count
divided by the Euclidean magnitude and the squared coordinates sum to 1;
and the embedding is a deterministic function of the text. -/
theorem computeSimpleEmbedding_spec (text : List Char) (h : text ≠ []) :
    (∀ i, charCounts text i =
        (text.filter (fun c => decide (c.toNat % EMBED_DIM = i.val))).length)
    ∧ (∑ i, computeSimpleEmbedding text i * computeSimpleEmbedding text i) = 1
    ∧ (∀ i, computeSimpleEmbedding text i =
        (charCounts text i : ℝ) /
          Real.sqrt (∑ j, (charCounts text j : ℝ) * (charCounts text j : ℝ)))
    ∧ (∀ t', text = t' → computeSimpleEmbedding text = computeSimpleEmbedding t') := by
  have hS : (0 : ℝ) < ∑ j, (charCounts text j : ℝ) * (charCounts text j : ℝ) := by
    rcases text with _ | ⟨c, rest⟩
    · exact absurd rfl h
    · have hdim : 0 < EMBED_DIM := by norm_num [EMBED_DIM]
      set i₀ : Fin EMBED_DIM := ⟨c.toNat % EMBED_DIM, Nat.mod_lt _ hdim⟩ with hi₀
      have hcount : 1 ≤ charCounts (c :: rest) i₀ := by
        rw [charCounts_count]
        have : (decide (c.toNat % EMBED_DIM = i₀.val)) = true := by
          simp [hi₀]
        rw [List.filter_cons, this]
        simp
      refine Finset.sum_pos' (fun j _ => mul_self_nonneg _) ⟨i₀, Finset.mem_univ _, ?_⟩
      have h1 : (1 : ℝ) ≤ (charCounts (c :: rest) i₀ : ℝ) := by
        exact_mod_cast hcount
      nlinarith
  have hmag : (0 : ℝ) <
      Real.sqrt (∑ j, (charCounts text j : ℝ) * (charCounts text j : ℝ)) :=
    Real.sqrt_pos.mpr hS
  have hemb : computeSimpleEmbedding text = fun i =>
      (charCounts text i : ℝ) /
        Real.sqrt (∑ j, (charCounts text j : ℝ) * (charCounts text j : ℝ)) := by
    rw [computeSimpleEmbedding]
    simp only
    rw [if_pos hmag]
  refine ⟨charCounts_count text, ?_, fun i => by rw [hemb], fun t' ht => ht ▸ rfl⟩
  rw [hemb]
  simp only
  have hsqrt : Real.sqrt (∑ j, (charCounts text j : ℝ) * (charCounts text j : ℝ)) *
      Real.sqrt (∑ j, (charCounts text j : ℝ) * (charCounts text j : ℝ))
      = ∑ j, (charCounts text j : ℝ) * (charCounts text j : ℝ) :=
    Real.mul_self_sqrt (le_of_lt hS)
  calc ∑ i, (charCounts text i : ℝ) /
          Real.sqrt (∑ j, (charCounts text j : ℝ) * (charCounts text j : ℝ)) *
          ((charCounts text i : ℝ) /
            Real.sqrt (∑ j, (charCounts text j : ℝ) * (charCounts text j : ℝ)))
      = ∑ i, (charCounts text i : ℝ) * (charCounts text i : ℝ) /
          (∑ j, (charCounts text j : ℝ) * (charCounts text j : ℝ)) := by
        refine Finset.sum_congr rfl (fun i _ => ?_)
        rw [div_mul_div_comm, hsqrt]
    _ = (∑ i, (charCounts text i : ℝ) * (charCounts text i : ℝ)) /
          (∑ j, (charCounts text j : ℝ) * (charCounts text j : ℝ)) :=
        (Finset.sum_div _ _ _).symm
    _ = 1 := div_self (ne_of_gt hS)

/-- C6 witness: the one-character text `"a"` is nonempty and its
embedding has unit Euclidean norm. -/
theorem computeSimpleEmbedding_spec_witness :
    (['a'] : List Char) ≠ []
    ∧ (∑ i, computeSimpleEmbedding ['a'] i * computeSimpleEmbedding ['a'] i) = 1 :=
  ⟨by decide, (computeSimpleEmbedding_spec ['a'] (by decide)).2.1⟩
